import Mathlib

/-!
Verification of the cluster multi-key emulation layer of the `coredis`
client library.  The Python sources under `coredis/commands/` are embedded
shallowly: every cluster-mixin method under scrutiny becomes a Lean function
over an explicit store model, and the single-key primitives the emulator
dispatches (GET/SET/DEL/SMEMBERS/DUMP/RESTORE/...), which the spec treats as
external collaborators of the router, are modelled from the spec with the
standard key/value-store semantics they name.
-/

namespace Coredis

/-! ## Generic helpers: Python value semantics -/

/-- Truthiness of a Python `Optional[bytes]` value: `None` and the empty
byte string are falsy, every other byte string is truthy. -/
def truthy : Option String → Bool
  | none => false
  | some v => v ≠ ""

/-- Modelled from the spec: the byte coercion `b()` of `coredis.utils`
(argument marshalling, outside the embedded core) applied to a possibly
`None` Python value.  A `None` is rendered by its `str()` form; a byte
string passes through unchanged. -/
def pyBytes : Option String → String
  | none => "None"
  | some v => v

/-- Strict lexicographic order on character lists (Python byte-string `<`,
which for the UTF-8 encodings at hand agrees with code-point order). -/
def lexLt : List Char → List Char → Bool
  | [], [] => false
  | [], _ :: _ => true
  | _ :: _, [] => false
  | a :: as, b :: bs => if a = b then lexLt as bs else decide (a < b)

/-- Reflexive lexicographic order on character lists. -/
def lexLe (a b : List Char) : Bool := a = b || lexLt a b

/-- Python byte-string comparison `a <= b` on our `String` model. -/
def pyStrLe (a b : String) : Bool := lexLe a.toList b.toList

/-- A decimal number `mant / 10 ^ exp`, the exact value of the decimal
literals accepted by the modelled fragment of Python `float()`. -/
structure Dec where
  mant : Int
  exp : Nat
deriving DecidableEq, Repr

/-- Comparison of two decimals by cross multiplication (exact, so it agrees
with Python float comparison on the short literals exercised here). -/
def decLe (a b : Dec) : Bool := a.mant * (10 : Int) ^ b.exp ≤ b.mant * (10 : Int) ^ a.exp

/-- Numeric value of a digit list (most significant first, empty list is 0). -/
def natOfDigits (cs : List Char) : Nat :=
  cs.foldl (fun a c => a * 10 + (c.toNat - 48)) 0

/-- Unsigned decimal literal: digits, optionally followed by a point and
further digits, with at least one digit overall. -/
def parseUDec (cs : List Char) : Option Dec :=
  let intPart := cs.takeWhile (·.isDigit)
  let rest := cs.dropWhile (·.isDigit)
  match rest with
  | [] => if intPart = [] then none else some ⟨natOfDigits intPart, 0⟩
  | c :: rest2 =>
    if c = '.' then
      let frac := rest2.takeWhile (·.isDigit)
      let rest3 := rest2.dropWhile (·.isDigit)
      if rest3 = [] ∧ (intPart ≠ [] ∨ frac ≠ []) then
        some ⟨(natOfDigits intPart : Int) * (10 : Int) ^ frac.length + natOfDigits frac,
              frac.length⟩
      else none
    else none

/-- Modelled from the spec: Python `float()` as used by the sort emulation's
key functions, restricted to plain decimal literals with an optional sign
(the exponent, infinity and whitespace forms are never produced by the
scenarios under verification).  `none` models the `ValueError` raised on a
non-numeric string. -/
def pyfloat (s : String) : Option Dec :=
  match s.toList with
  | '-' :: cs => (parseUDec cs).map (fun d => ⟨-d.mant, d.exp⟩)
  | '+' :: cs => parseUDec cs
  | cs => parseUDec cs

/-! ## Plain key/value store (string values)

Modelled from the spec: the single-key primitives `GET`, `SET` and `DEL` of
the external store collaborator (spec section 6), which the emulator reaches
through `execute_command`. -/

/-- A keyspace of opaque byte-string values; `none` is an absent key. -/
abbrev KVStore := String → Option String

/-- SET: bind `k` to `v`. -/
def kset (s : KVStore) (k v : String) : KVStore :=
  fun j => if j = k then some v else s j

/-- DEL of a single key. -/
def kdel (s : KVStore) (k : String) : KVStore :=
  fun j => if j = k then none else s j

/-! ## `ClusterStringsCommandMixin`: mset / msetnx -/

/-- Last binding of `k` in an association list, mirroring how a Python
`dict` built from the pairs would resolve duplicate keys. -/
def lookupLast (pairs : List (String × String)) (k : String) : Option String :=
  match pairs with
  | [] => none
  | p :: rest =>
    match lookupLast rest k with
    | some v => some v
    | none => if p.1 = k then some p.2 else none

/-- `ClusterStringsCommandMixin.mset`: iterate over all items and SET each
`(k, v)` pair; always replies `True`. -/
def mset (s : KVStore) (pairs : List (String × String)) : Bool × KVStore :=
  (true, pairs.foldl (fun acc p => kset acc p.1 p.2) s)

/-- `ClusterStringsCommandMixin.msetnx`: GET every key and fail fast with
`False` if one holds a truthy value, otherwise delegate to `mset`.  The
check loop performs no writes. -/
def msetnx (s : KVStore) (pairs : List (String × String)) : Bool × KVStore :=
  if pairs.any (fun p => truthy (s p.1)) then (false, s)
  else mset s pairs

/-! ## `ClusterKeysCommandMixin.rename`

Modelled from the spec: the DUMP/PTTL/RESTORE/DEL primitives of the external
store collaborator.  A stored value is an opaque serialized payload together
with its remaining time to live in milliseconds (`none` = no expiry). -/

/-- One stored value of the relocation model: serialized payload plus
remaining TTL in milliseconds (`none` meaning the key never expires). -/
structure RVal where
  data : String
  ttl : Option Int
deriving DecidableEq, Repr

/-- Keyspace for the relocation model. -/
abbrev KStore := String → Option RVal

/-- DUMP: the serialized payload of `k`, or `none` when `k` is absent. -/
def dump (s : KStore) (k : String) : Option String := (s k).map (·.data)

/-- PTTL: `-2` for a missing key, `-1` for a key without expiry, otherwise
the remaining milliseconds.  The client-side reply is typed `Optional[int]`,
so the embedding keeps the `Option` wrapper the calling code checks. -/
def pttl (s : KStore) (k : String) : Option Int :=
  match s k with
  | none => some (-2)
  | some v => some (v.ttl.getD (-1))

/-- DEL of a single key in the relocation model. -/
def krem (s : KStore) (k : String) : KStore :=
  fun j => if j = k then none else s j

/-- RESTORE: recreate `k` from a serialized payload; a `ttl` of `0` means no
expiry, any positive `ttl` becomes the new expiry in milliseconds. -/
def restore (s : KStore) (k : String) (ttl : Int) (data : String) : KStore :=
  fun j => if j = k then some ⟨data, if ttl = 0 then none else some ttl⟩ else s j

/-- TTL normalization performed by `rename`: `if ttl is None or ttl < 1:
ttl = 0`. -/
def renameTtl (s : KStore) (src : String) : Int :=
  match pttl s src with
  | none => 0
  | some t => if t < 1 then 0 else t

/-- `ClusterKeysCommandMixin.rename`: guard against equal names, DUMP the
source (erroring when it is absent), read and normalize its PTTL, DEL the
destination, RESTORE the payload into the destination, DEL the source.  The
store is returned alongside the reply so error cases expose the untouched
keyspace. -/
def rename (s : KStore) (src dst : String) : Except String Bool × KStore :=
  if src = dst then (.error "source and destination objects are the same", s)
  else
    match dump s src with
    | none => (.error "no such key", s)
    | some data =>
      let ttl := renameTtl s src
      let s1 := krem s dst
      let s2 := restore s1 dst ttl data
      let s3 := krem s2 src
      (.ok true, s3)

/-- Keyspace reached after the first `n` steps of `rename`'s sequence
(1 DUMP, 2 PTTL, 3 DEL destination, 4 RESTORE destination, 5 DEL source);
steps 1 and 2 are reads.  Only meaningful under `rename`'s guards (distinct
names, source present). -/
def renameAfter (s : KStore) (src dst : String) : Nat → KStore
  | 0 => s
  | 1 => s
  | 2 => s
  | 3 => krem s dst
  | 4 => restore (krem s dst) dst (renameTtl s src) ((dump s src).getD "")
  | _ + 5 =>
      krem (restore (krem s dst) dst (renameTtl s src) ((dump s src).getD "")) src

/-! ## `ClusterSetsCommandMixin`: set algebra and its store variants

Modelled from the spec: SMEMBERS/SADD/DEL of the external store
collaborator; the reply of `smembers` is decoded into a Python `set`,
rendered here as a `Finset`. -/

/-- Keyspace of the set-algebra model. -/
abbrev SStore := String → Option (Finset String)

/-- SMEMBERS: the membership of `k`, empty when `k` is absent. -/
def smembers (s : SStore) (k : String) : Finset String := (s k).getD ∅

/-- DEL of a single key in the set-algebra model. -/
def sdel (s : SStore) (k : String) : SStore :=
  fun j => if j = k then none else s j

/-- SADD: add `members` to `k`, replying with the number of elements that
were not already present; the server refuses the call when no member is
supplied (`*res` splats an empty Python set into zero arguments). -/
def sadd (s : SStore) (k : String) (members : Finset String) :
    Except String Nat × SStore :=
  if members = ∅ then (.error "wrong number of arguments for sadd command", s)
  else
    (.ok (members \ smembers s k).card,
     fun j => if j = k then some (smembers s k ∪ members) else s j)

/-- `ClusterSetsCommandMixin.sdiff`: SMEMBERS of the first key, then
subtract the membership of each further key (`none` models the `IndexError`
of an empty argument list). -/
def sdiff (s : SStore) : List String → Option (Finset String)
  | [] => none
  | k :: rest => some (rest.foldl (fun res arg => res \ smembers s arg) (smembers s k))

/-- `ClusterSetsCommandMixin.sinter`: intersection, same shape as `sdiff`. -/
def sinter (s : SStore) : List String → Option (Finset String)
  | [] => none
  | k :: rest => some (rest.foldl (fun res arg => res ∩ smembers s arg) (smembers s k))

/-- `ClusterSetsCommandMixin.sunion`: union, same shape as `sdiff`. -/
def sunion (s : SStore) : List String → Option (Finset String)
  | [] => none
  | k :: rest => some (rest.foldl (fun res arg => res ∪ smembers s arg) (smembers s k))

/-- `ClusterSetsCommandMixin.sdiffstore`: compute `sdiff`, DEL the
destination, reply `0` when the difference is empty, otherwise SADD the
difference into the destination and reply with SADD's count. -/
def sdiffstore (s : SStore) (keys : List String) (destination : String) :
    Except String Nat × SStore :=
  match sdiff s keys with
  | none => (.error "list index out of range", s)
  | some res =>
    let s1 := sdel s destination
    if res = ∅ then (.ok 0, s1) else sadd s1 destination res

/-- `ClusterSetsCommandMixin.sinterstore`: compute `sinter`, DEL the
destination, then SADD the intersection when it is non-empty, replying with
its size (not SADD's own reply). -/
def sinterstore (s : SStore) (keys : List String) (destination : String) :
    Except String Nat × SStore :=
  match sinter s keys with
  | none => (.error "list index out of range", s)
  | some res =>
    let s1 := sdel s destination
    if res = ∅ then (.ok 0, s1)
    else (.ok res.card, (sadd s1 destination res).2)

/-- `ClusterSetsCommandMixin.sunionstore`: compute `sunion`, DEL the
destination, then SADD unconditionally, replying with SADD's count (an
empty union therefore surfaces SADD's arity error). -/
def sunionstore (s : SStore) (keys : List String) (destination : String) :
    Except String Nat × SStore :=
  match sunion s keys with
  | none => (.error "list index out of range", s)
  | some res =>
    let s1 := sdel s destination
    sadd s1 destination res

/-! ## `ClusterHyperLogCommandMixin.pfmerge` and its key generator -/

/-- The alphabet of `_random_id`: `string.ascii_uppercase + string.digits`. -/
def ALPHABET : List Char := "ABCDEFGHIJKLMNOPQRSTUVWXYZ0123456789".toList

/-- `ClusterHyperLogCommandMixin._random_id`: join `size` draws from the
alphabet; the random draws are passed in explicitly as `picks` (each a
position in the 36-character alphabet, so the fallback of `getD` is never
reached). -/
def random_id (picks : Nat → Fin 36) (size : Nat) : String :=
  String.mk ((List.range size).map (fun i => ALPHABET.getD (picks i).val 'A'))

/-- Opening brace character, kept symbolic for the hash-tag scanner. -/
def lbrace : Char := Char.ofNat 123

/-- Closing brace character. -/
def rbrace : Char := Char.ofNat 125

/-- `ClusterHyperLogCommandMixin._random_good_hashslot_key`: the source
builds `f"{{hashslot}}{self._random_id()}"`, and inside a Python f-string
`{{` and `}}` are escapes for literal braces, so the result is the constant
ten-character text `{hashslot}` followed by the fresh random id — the
`hashslot` argument is never interpolated.  `rid` stands for the
`_random_id()` call made inside the helper. -/
def random_good_hashslot_key (hashslot : String) (rid : String) : String :=
  "\x7bhashslot\x7d" ++ rid

/-- Modelled from the spec: the hash-tag extraction of the slot resolver
(spec section 4.1, the key-hashing code lives outside the embedded
sources): the substring between the first `{` and the next `}` is the tag,
and an empty or unterminated tag counts as absent. -/
def hashTagOf (key : String) : Option String :=
  match key.toList.dropWhile (· ≠ lbrace) with
  | [] => none
  | _ :: rest =>
    let tag := rest.takeWhile (· ≠ rbrace)
    if tag.length < rest.length ∧ tag ≠ [] then some (String.mk tag) else none

/-- Everything `pfmerge` produced: the reply, the final keyspace, the
relocated per-source keys, the temporary merge destination and the value
written back to the true destination. -/
structure PfmergeOut where
  ret : Bool
  store : KVStore
  tempKeys : List String
  tmpDest : String
  merged : String

/-- `ClusterHyperLogCommandMixin.pfmerge`: GET every source, draw one
random id (`rng 0`) as the invocation's hash slot, GET the destination and
append it when truthy, SET every fetched object under a fresh temporary key
(`rng 1`, `rng 2`, ...), run the real PFMERGE (modelled by the external
`serverMerge`) into a further temporary key, GET the merged value, SET it
at the true destination, then DEL the temporary destination and every
temporary key.  `rng n` is the value of the `n`-th `_random_id()` call. -/
def pfmerge (serverMerge : Option String → List (Option String) → String)
    (rng : Nat → String) (s : KVStore) (destkey : String)
    (sourcekeys : List String) : PfmergeOut :=
  let all_hll_objects : List (Option String) := sourcekeys.map (fun k => s k)
  let random_hash_slot := rng 0
  let dest_data := s destkey
  let all_hll_objects :=
    if truthy dest_data then all_hll_objects ++ [dest_data] else all_hll_objects
  let n := all_hll_objects.length
  let all_k := (List.range n).map
    (fun i => random_good_hashslot_key random_hash_slot (rng (i + 1)))
  let s1 := (all_k.zip all_hll_objects).foldl
    (fun acc p => kset acc p.1 (pyBytes p.2)) s
  let tmp_dest := random_good_hashslot_key random_hash_slot (rng (n + 1))
  let merged := serverMerge (s1 tmp_dest) (all_k.map s1)
  let s2 := kset s1 tmp_dest merged
  let parsed_dest := s2 tmp_dest
  let s3 := kset s2 destkey (pyBytes parsed_dest)
  let s4 := kdel s3 tmp_dest
  let s5 := all_k.foldl kdel s4
  ⟨true, s5, all_k, tmp_dest, pyBytes parsed_dest⟩

/-! ## Node-flag tables of the cluster mixins -/

/-- Modelled from the spec: `coredis.utils.NodeFlag` (outside the embedded
sources), the closed set of routing policies of spec section 3. -/
inductive NodeFlag where
  | blocked
  | random
  | allMasters
  | allNodes
deriving DecidableEq, Repr

/-- Modelled from the spec: `coredis.utils.list_keys_to_dict`, mapping every
listed command name to one flag. -/
def list_keys_to_dict (keys : List String) (flag : NodeFlag) :
    List (String × NodeFlag) :=
  keys.map (fun k => (k, flag))

/-- Modelled from the spec: `coredis.utils.dict_merge`, merging mappings
left to right with later entries overriding earlier ones. -/
def dict_merge (ds : List (List (String × NodeFlag))) : List (String × NodeFlag) :=
  ds.foldl (· ++ ·) []

/-- Dictionary lookup over the merged association list (later wins). -/
def lookupFlag (t : List (String × NodeFlag)) (cmd : String) : Option NodeFlag :=
  (t.reverse.find? (fun p => p.1 = cmd)).map (·.2)

/-- `ClusterKeysCommandMixin.NODES_FLAGS`. -/
def KEYS_NODES_FLAGS : List (String × NodeFlag) :=
  dict_merge
    [[("MOVE", .blocked), ("RANDOMKEY", .random), ("SCAN", .allMasters)],
     list_keys_to_dict ["KEYS"] .allNodes]

/-- `ClusterStringsCommandMixin.NODES_FLAGS`. -/
def STRINGS_NODES_FLAGS : List (String × NodeFlag) :=
  [("BITOP", .blocked)]

/-- `ClusterServerCommandMixin.NODES_FLAGS`. -/
def SERVER_NODES_FLAGS : List (String × NodeFlag) :=
  dict_merge
    [list_keys_to_dict ["SHUTDOWN", "SLAVEOF", "CLIENT SETNAME"] .blocked,
     list_keys_to_dict ["FLUSHALL", "FLUSHDB"] .allMasters,
     list_keys_to_dict
       ["SLOWLOG LEN", "SLOWLOG RESET", "SLOWLOG GET", "TIME", "SAVE",
        "LASTSAVE", "DBSIZE", "CONFIG RESETSTAT", "CONFIG REWRITE",
        "CONFIG GET", "CONFIG SET", "CLIENT KILL", "CLIENT LIST",
        "CLIENT GETNAME", "INFO", "BGSAVE", "BGREWRITEAOF"] .allNodes]

/-- What the router does with a command, as far as the flag decides it. -/
inductive RouteAction where
  | refuseUnsupportedInCluster
  | dispatch (flag : Option NodeFlag)
deriving DecidableEq, Repr

/-- Modelled from the spec: the router's evaluation of the `Blocked` policy
(spec section 4.3) — fail fast with `UnsupportedInCluster`, never broadcast
or route such a command; every other flag is dispatched. -/
def routeDecision (t : List (String × NodeFlag)) (cmd : String) : RouteAction :=
  match lookupFlag t cmd with
  | some .blocked => .refuseUnsupportedInCluster
  | f => .dispatch f

/-! ## `ClusterListsCommandMixin.sort`

Modelled from the spec: the TYPE/SMEMBERS/LRANGE/GET/HGET/DEL/RPUSH
primitives of the external store collaborator.  One keyspace of typed
values backs them all. -/

/-- A stored value of the sort model: string, set, list or hash. -/
inductive RObj where
  | str (v : String)
  | set (m : Finset String)
  | list (l : List String)
  | hash (h : List (String × String))
deriving DecidableEq

/-- Keyspace of the sort model. -/
abbrev LStore := String → Option RObj

/-- TYPE: the server's name for the stored value's type. -/
def typeOf (s : LStore) (k : String) : String :=
  match s k with
  | none => "none"
  | some (.str _) => "string"
  | some (.set _) => "set"
  | some (.list _) => "list"
  | some (.hash _) => "hash"

/-- GET in the sort model; `none` covers both an absent key and the
WRONGTYPE error path, which no scenario under verification reaches. -/
def lget (s : LStore) (k : String) : Option String :=
  match s k with
  | some (.str v) => some v
  | _ => none

/-- HGET in the sort model. -/
def lhget (s : LStore) (k f : String) : Option String :=
  match s k with
  | some (.hash h) => (h.find? (fun p => p.1 = f)).map (·.2)
  | _ => none

/-- DEL of a single key in the sort model. -/
def ldel (s : LStore) (k : String) : LStore :=
  fun j => if j = k then none else s j

/-- RPUSH: append `vals` to the list at `k` (a fresh key starts empty),
replying with the new length; the server refuses a call with no value. -/
def rpush (s : LStore) (k : String) (vals : List String) :
    Except String Nat × LStore :=
  if vals = [] then (.error "wrong number of arguments for rpush command", s)
  else
    let old := match s k with | some (.list l) => l | _ => []
    (.ok (old ++ vals).length,
     fun j => if j = k then some (.list (old ++ vals)) else s j)

/-- Python `str.replace("*", arg)` on the patterns used by `sort`. -/
def replaceStar (pat : List Char) (arg : List Char) : List Char :=
  pat.flatMap (fun c => if c = '*' then arg else [c])

/-- Whether a character list contains the two-character sequence `->`. -/
def hasArrow : List Char → Bool
  | '-' :: '>' :: _ => true
  | _ :: rest => hasArrow rest
  | [] => false

/-- Split at the first `->`, the successful case of Python's
`key, hash_key = key.split("->")` (further arrows would make the unpacking
raise, which no verified scenario exercises). -/
def splitArrow : List Char → Option (List Char × List Char)
  | '-' :: '>' :: rest => some ([], rest)
  | c :: rest => (splitArrow rest).map (fun p => (c :: p.1, p.2))
  | [] => none

/-- A sort key as Python holds it: a float from `float(...)` or a raw byte
string.  Within one `sort` call only one shape occurs (mixing them would
raise `TypeError` in Python); the cross-shape order is arbitrary. -/
inductive SKey where
  | num (d : Dec)
  | raw (v : String)
deriving DecidableEq

/-- Comparison of sort keys. -/
def skeyLe : SKey → SKey → Bool
  | .num a, .num b => decLe a b
  | .raw a, .raw b => pyStrLe a b
  | .num _, .raw _ => true
  | .raw _, .num _ => false

/-- `ClusterListsCommandMixin._sort_using_by_arg`'s per-element key
function `_by_key`: substitute the element into the pattern; with a `->`
in the pattern, HGET the field and convert through `float` unless `alpha`;
otherwise GET the substituted key and use the reply raw.  An error models
the `ValueError`/`TypeError` Python raises on a non-numeric or missing
value. -/
def byKeyOf (s : LStore) (byPat : String) (alpha : Bool) (arg : String) :
    Except String SKey :=
  let key := replaceStar byPat.toList arg.toList
  if hasArrow byPat.toList then
    match splitArrow key with
    | none => .error "not enough values to unpack"
    | some (k, f) =>
      match lhget s (String.mk k) (String.mk f) with
      | none => .error "TypeError"
      | some v =>
        if alpha then .ok (.raw v)
        else match pyfloat v with
          | some d => .ok (.num d)
          | none => .error "could not convert string to float"
  else
    match lget s (String.mk key) with
    | none => .error "TypeError"
    | some v => .ok (.raw v)

/-- The in-memory sorting performed by `sort`: pair every element with its
key, stable-sort by the key, keep the elements.  `List.insertionSort` is
stable, so it returns exactly what Python's stable `sorted`/`list.sort`
returns for these total preorders. -/
def sortPairs (pairs : List (String × SKey)) : List String :=
  (List.insertionSort (fun a b => skeyLe a.2 b.2) pairs).map (·.1)

/-- An element tagged with its `_by_key` result. -/
def byKeyPair (s : LStore) (bp : String) (alpha : Bool) (d : String) :
    Except String (String × SKey) :=
  (byKeyOf s bp alpha d).map (fun k => (d, k))

/-- An element tagged with its `_strtod_key_func` (Python `float`) result;
the error is Python's `ValueError` for a non-numeric element. -/
def floatKeyPair (d : String) : Except String (String × SKey) :=
  match pyfloat d with
  | some q => Except.ok (d, SKey.num q)
  | none => Except.error "could not convert string to float"

/-- The sort phase of `ClusterListsCommandMixin.sort`: with `by` resolve
every element's auxiliary key through `_by_key`; without `by` sort by
`_strtod_key_func` (that is, `float`) unless `alpha`, in which case the
elements compare raw. -/
def sortData (s : LStore) (byPat : Option String) (alpha : Bool)
    (data : List String) : Except String (List String) :=
  match byPat with
  | some bp => (data.mapM (byKeyPair s bp alpha)).map sortPairs
  | none =>
    if ¬ alpha then (data.mapM floatKeyPair).map sortPairs
    else pure (List.insertionSort (fun a b => pyStrLe a b) data)

/-- `ClusterListsCommandMixin._get_single_item`: substitute the element
into a `get` pattern and GET it, pass the element itself through for `#`,
and `None` (rendered by `b()`) otherwise.  The `->` branch reproduces the
source's unconditional `TypeError` (`self.get(key, {})` is called with two
arguments). -/
def getSingleItem (s : LStore) (k g : String) : Except String String :=
  if g.toList.contains '*' then
    let g2 := replaceStar g.toList k.toList
    if hasArrow (String.mk g2).toList then .error "TypeError"
    else .ok (pyBytes (lget s (String.mk g2)))
  else if g.toList.contains '#' then .ok (pyBytes (some k))
  else .ok (pyBytes none)

/-- `ClusterListsCommandMixin._retrive_data_from_sort`: one item per
element and `get` pattern, in element-major order. -/
def retriveDataFromSort (s : LStore) (data : List String) (gets : List String) :
    Except String (List String) :=
  if gets = [] then .ok data
  else data.mapM (fun k => gets.mapM (fun g => getSingleItem s k g)) |>.map List.flatten

/-- `ClusterListsCommandMixin.sort`.  `setEnum` is the arbitrary iteration
order in which Python's `list(...)` linearizes the decoded `SMEMBERS` set.
The validator `mutually_inclusive_parameters("offset", "count")` guards the
entry; the reply is either the sorted slice or, with `store`, the number of
elements written after a DEL-then-RPUSH of the destination. -/
def sort (setEnum : Finset String → List String) (s : LStore) (key : String)
    (gets : List String) (byPat : Option String) (offset count : Option Nat)
    (desc : Bool) (alpha : Bool) (store : Option String) :
    Except String (List String ⊕ Nat) × LStore :=
  if offset.isSome ≠ count.isSome then
    (.error "offset and count must be specified together", s)
  else
    let data_type := typeOf s key
    if data_type = "none" then (.ok (.inl []), s)
    else if data_type ≠ "set" ∧ data_type ≠ "list" then
      (.error ("Unable to sort data type : " ++ data_type), s)
    else
      let data : List String :=
        match s key with
        | some (.set m) => setEnum m
        | some (.list l) => l
        | _ => []
      match sortData s byPat alpha data with
      | .error e => (.error e, s)
      | .ok sorted0 =>
        let sorted1 := if desc then sorted0.reverse else sorted0
        let sorted2 :=
          match offset, count with
          | some o, some c => (sorted1.drop o).take c
          | _, _ => sorted1
        match retriveDataFromSort s sorted2 gets with
        | .error e => (.error e, s)
        | .ok data2 =>
          match store with
          | some st =>
            if data_type = "set" ∨ data_type = "list" then
              let s1 := ldel s st
              match rpush s1 st data2 with
              | (.error e, s2) => (.error e, s2)
              | (.ok _, s2) => (.ok (.inr data2.length), s2)
            else
              (.error ("Unable to store sorted data for data type : " ++ data_type), s)
          | none => (.ok (.inl data2), s)

/-- Decidable equality of replies, so concrete runs can be checked by
`decide`. -/
instance exceptDecEq {ε α : Type} [DecidableEq ε] [DecidableEq α] :
    DecidableEq (Except ε α) := fun a b =>
  match a, b with
  | .ok x, .ok y =>
    if h : x = y then isTrue (by rw [h])
    else isFalse (fun he => by cases he; exact h rfl)
  | .ok _, .error _ => isFalse (fun he => by cases he)
  | .error _, .ok _ => isFalse (fun he => by cases he)
  | .error x, .error y =>
    if h : x = y then isTrue (by rw [h])
    else isFalse (fun he => by cases he; exact h rfl)

/-! ## Shared lemmas -/

/-- Folding `kset` over pairs realizes the last-wins dictionary semantics. -/
theorem foldl_kset_lookupLast (pairs : List (String × String)) (s : KVStore)
    (k : String) :
    (pairs.foldl (fun acc p => kset acc p.1 p.2) s) k =
      match lookupLast pairs k with
      | some v => some v
      | none => s k := by
  induction pairs generalizing s with
  | nil => simp [lookupLast]
  | cons p rest ih =>
    simp only [List.foldl_cons, lookupLast, ih]
    cases lookupLast rest k with
    | some v => simp
    | none =>
      by_cases h : p.1 = k
      · simp [kset, h]
      · have h' : ¬ k = p.1 := fun hk => h hk.symm
        simp [kset, h, h']

/-! ## C8 -/

/-- C8: in the cluster mixins' node-flag tables, MOVE (keys), BITOP
(strings) and SHUTDOWN, SLAVEOF, CLIENT SETNAME (server) are all registered
with the Blocked routing policy, and the router's evaluation of that policy
refuses the command instead of dispatching it. -/
theorem blocked_commands_registered :
    lookupFlag KEYS_NODES_FLAGS "MOVE" = some .blocked ∧
    lookupFlag STRINGS_NODES_FLAGS "BITOP" = some .blocked ∧
    lookupFlag SERVER_NODES_FLAGS "SHUTDOWN" = some .blocked ∧
    lookupFlag SERVER_NODES_FLAGS "SLAVEOF" = some .blocked ∧
    lookupFlag SERVER_NODES_FLAGS "CLIENT SETNAME" = some .blocked ∧
    routeDecision KEYS_NODES_FLAGS "MOVE" = .refuseUnsupportedInCluster ∧
    routeDecision STRINGS_NODES_FLAGS "BITOP" = .refuseUnsupportedInCluster ∧
    routeDecision SERVER_NODES_FLAGS "SHUTDOWN" = .refuseUnsupportedInCluster ∧
    routeDecision SERVER_NODES_FLAGS "SLAVEOF" = .refuseUnsupportedInCluster ∧
    routeDecision SERVER_NODES_FLAGS "CLIENT SETNAME" = .refuseUnsupportedInCluster := by
  decide

/-! ## C9 -/

/-- C9: the cluster msetnx emulation checks all keys before writing: some
key truthy (non-empty) means reply `False` with the keyspace untouched;
when every key reads back absent or empty — the empty string counting as
absent — it sets every pair (last binding winning) and replies `True`,
leaving unmentioned keys unchanged. -/
theorem msetnx_reads_before_writing (s : KVStore) (pairs : List (String × String)) :
    ((∃ p ∈ pairs, truthy (s p.1)) → msetnx s pairs = (false, s)) ∧
    ((∀ p ∈ pairs, ¬ truthy (s p.1)) →
      (msetnx s pairs).1 = true ∧
      (∀ k v, lookupLast pairs k = some v → (msetnx s pairs).2 k = some v) ∧
      (∀ k, lookupLast pairs k = none → (msetnx s pairs).2 k = s k)) := by
  constructor
  · intro h
    have ha : pairs.any (fun p => truthy (s p.1)) = true := by
      rw [List.any_eq_true]
      obtain ⟨p, hp, ht⟩ := h
      exact ⟨p, hp, ht⟩
    simp [msetnx, ha]
  · intro h
    have ha : pairs.any (fun p => truthy (s p.1)) = false := by
      rw [List.any_eq_false]
      intro p hp
      simpa using h p hp
    refine ⟨by simp [msetnx, ha, mset], ?_, ?_⟩
    · intro k v hv
      simp [msetnx, ha, mset, foldl_kset_lookupLast, hv]
    · intro k hv
      simp [msetnx, ha, mset, foldl_kset_lookupLast, hv]

/-- C9 witness: against a store where `a` holds the empty string, msetnx of
`a ↦ x` succeeds and overwrites it. -/
theorem msetnx_reads_before_writing_witness :
    (∀ p ∈ [("a", "x")],
        ¬ truthy ((fun k => if k = "a" then some "" else none : KVStore) p.1)) ∧
    (msetnx (fun k => if k = "a" then some "" else none) [("a", "x")]).1 = true ∧
    (msetnx (fun k => if k = "a" then some "" else none) [("a", "x")]).2 "a" = some "x" := by
  refine ⟨by decide, ?_, ?_⟩
  · exact ((msetnx_reads_before_writing _ _).2 (by decide)).1
  · exact ((msetnx_reads_before_writing _ _).2 (by decide)).2.1 "a" "x" (by decide)

/-! ## C10 -/

/-- C10: the cluster rename emulation replies with the "same object" error
when source and destination coincide and with "no such key" when DUMP of
the source yields nothing, in both cases before issuing any delete or
write, so the keyspace is returned unchanged. -/
theorem rename_errors_before_mutation (s : KStore) (src dst : String) :
    (src = dst →
      rename s src dst = (.error "source and destination objects are the same", s)) ∧
    (src ≠ dst → dump s src = none →
      rename s src dst = (.error "no such key", s)) := by
  constructor
  · intro h
    simp [rename, h]
  · intro h hd
    simp [rename, h, hd]

/-- C10 witness: both error paths at concrete inputs. -/
theorem rename_errors_before_mutation_witness :
    rename (fun _ => none) "a" "a" =
      (.error "source and destination objects are the same", fun _ => none) ∧
    rename (fun _ => none) "a" "b" = (.error "no such key", fun _ => none) := by
  constructor
  · exact (rename_errors_before_mutation _ "a" "a").1 rfl
  · exact (rename_errors_before_mutation _ "a" "b").2 (by decide) (by simp [dump])

/-! ## C6 -/

/-- The successful run of `rename` lands exactly on the state after all
five steps of its sequence. -/
theorem rename_eq_renameAfter (s : KStore) (src dst : String) (v : RVal)
    (hsrc : s src = some v) (hne : src ≠ dst) :
    rename s src dst = (.ok true, renameAfter s src dst 5) := by
  simp [rename, hne, dump, hsrc, renameAfter]

/-- C6: on success the rename emulation runs DUMP, PTTL, DEL destination,
RESTORE destination with the normalized TTL (0, meaning no expiry, when the
TTL was absent or below 1), DEL source — afterwards the destination holds
the source's former payload, the source is absent, and no other key moved. -/
theorem rename_success_moves_value (s : KStore) (src dst : String) (v : RVal)
    (hsrc : s src = some v) (hne : src ≠ dst) :
    (rename s src dst).1 = .ok true ∧
    (rename s src dst).2 = renameAfter s src dst 5 ∧
    (rename s src dst).2 src = none ∧
    (rename s src dst).2 dst =
      some ⟨v.data, v.ttl.bind (fun t => if t < 1 then none else some t)⟩ ∧
    (∀ j, j ≠ src → j ≠ dst → (rename s src dst).2 j = s j) := by
  have hne' : ¬ dst = src := fun h => hne h.symm
  rw [rename_eq_renameAfter s src dst v hsrc hne]
  refine ⟨rfl, rfl, ?_, ?_, ?_⟩
  · simp [renameAfter, krem]
  · simp only [renameAfter, krem, restore, dump, hsrc, Option.map_some, Option.getD_some,
      if_neg hne', if_pos rfl]
    simp only [renameTtl, pttl, hsrc]
    cases ht : v.ttl with
    | none => simp
    | some t =>
      by_cases h1 : t < 1
      · simp [h1]
      · have h0 : ¬ t = 0 := by omega
        simp [h1, h0]
  · intro j hjs hjd
    simp [renameAfter, krem, restore, hjs, hjd]

/-- C6 witness: a source with payload and a 5000 ms TTL renamed over an
existing destination. -/
theorem rename_success_moves_value_witness :
    ((fun k => if k = "a" then some ⟨"payload", some 5000⟩
       else if k = "b" then some ⟨"old", none⟩ else none : KStore) "a" =
        some ⟨"payload", some 5000⟩) ∧
    ("a" : String) ≠ "b" ∧
    (rename (fun k => if k = "a" then some ⟨"payload", some 5000⟩
       else if k = "b" then some ⟨"old", none⟩ else none) "a" "b").1 = .ok true ∧
    (rename (fun k => if k = "a" then some ⟨"payload", some 5000⟩
       else if k = "b" then some ⟨"old", none⟩ else none) "a" "b").2 "a" = none ∧
    (rename (fun k => if k = "a" then some ⟨"payload", some 5000⟩
       else if k = "b" then some ⟨"old", none⟩ else none) "a" "b").2 "b" =
      some ⟨"payload", some 5000⟩ := by
  have h := rename_success_moves_value
    (fun k => if k = "a" then some ⟨"payload", some 5000⟩
      else if k = "b" then some ⟨"old", none⟩ else none)
    "a" "b" ⟨"payload", some 5000⟩ (by decide) (by decide)
  refine ⟨by decide, by decide, h.1, h.2.2.1, ?_⟩
  rw [h.2.2.2.1]
  decide

/-! ## C2 -/

/-- C2: stopping after any prefix of the rename emulation's step sequence
never leaves source and destination both absent; at every prefix either the
source still holds its original value or the destination holds the source's
payload (so at worst the data is duplicated, never lost). -/
theorem rename_prefix_never_loses (s : KStore) (src dst : String) (v : RVal)
    (hsrc : s src = some v) (hne : src ≠ dst) (n : Nat) (hn : n ≤ 5) :
    ¬ (renameAfter s src dst n src = none ∧ renameAfter s src dst n dst = none) ∧
    (renameAfter s src dst n src = some v ∨
      ∃ t, renameAfter s src dst n dst = some ⟨v.data, t⟩) := by
  have hne' : ¬ dst = src := fun h => hne h.symm
  have hne2 : ¬ src = dst := hne
  interval_cases n
  · exact ⟨fun h => by simp [renameAfter, hsrc] at h, Or.inl (by simpa [renameAfter])⟩
  · exact ⟨fun h => by simp [renameAfter, hsrc] at h, Or.inl (by simpa [renameAfter])⟩
  · exact ⟨fun h => by simp [renameAfter, hsrc] at h, Or.inl (by simpa [renameAfter])⟩
  · constructor
    · intro h
      have := h.1
      simp [renameAfter, krem, hne', hne2, hsrc] at this
    · exact Or.inl (by simp [renameAfter, krem, hne', hne2, hsrc])
  · constructor
    · intro h
      have := h.1
      simp [renameAfter, krem, restore, hne', hne2, hsrc] at this
    · exact Or.inl (by simp [renameAfter, krem, restore, hne', hne2, hsrc])
  · constructor
    · intro h
      have := h.2
      simp [renameAfter, krem, restore, dump, hne', hne2, hsrc] at this
    · refine Or.inr ⟨if renameTtl s src = 0 then none else some (renameTtl s src), ?_⟩
      simp [renameAfter, krem, restore, dump, hne', hne2, hsrc]

/-- C2 witness: the prefix ending right after the destination RESTORE
(step 4), where both keys deliberately coexist. -/
theorem rename_prefix_never_loses_witness :
    ((fun k => if k = "a" then some ⟨"payload", none⟩ else none : KStore) "a" =
      some ⟨"payload", none⟩) ∧
    ("a" : String) ≠ "b" ∧ 4 ≤ 5 ∧
    ¬ (renameAfter (fun k => if k = "a" then some ⟨"payload", none⟩ else none)
        "a" "b" 4 "a" = none ∧
       renameAfter (fun k => if k = "a" then some ⟨"payload", none⟩ else none)
        "a" "b" 4 "b" = none) ∧
    (renameAfter (fun k => if k = "a" then some ⟨"payload", none⟩ else none)
        "a" "b" 4 "a" = some ⟨"payload", none⟩ ∨
      ∃ t, renameAfter (fun k => if k = "a" then some ⟨"payload", none⟩ else none)
        "a" "b" 4 "b" = some ⟨"payload", t⟩) := by
  have h := rename_prefix_never_loses
    (fun k => if k = "a" then some ⟨"payload", none⟩ else none)
    "a" "b" ⟨"payload", none⟩ (by decide) (by decide) 4 (by omega)
  exact ⟨by decide, by decide, by omega, h.1, h.2⟩

/-! ## C3 -/

/-- C3: the sdiffstore emulation on `a = {1,2,3}`, `b = {2,3}` into `d`
stores exactly `{1}` and replies `1`; in general a non-empty computed
difference lands verbatim in the (previously deleted) destination with the
cardinality as the reply, and an empty difference replies `0` with the
destination left deleted. -/
theorem sdiffstore_scenario :
    ((sdiffstore (fun k => if k = "a" then some {"1", "2", "3"}
        else if k = "b" then some {"2", "3"} else none) ["a", "b"] "d").1 = .ok 1 ∧
     (sdiffstore (fun k => if k = "a" then some {"1", "2", "3"}
        else if k = "b" then some {"2", "3"} else none) ["a", "b"] "d").2 "d" =
       some {"1"}) ∧
    (∀ (s : SStore) (keys : List String) (dst : String) (res : Finset String),
      sdiff s keys = some res → res ≠ ∅ →
      (sdiffstore s keys dst).1 = .ok res.card ∧
      (sdiffstore s keys dst).2 dst = some res) ∧
    (∀ (s : SStore) (keys : List String) (dst : String),
      sdiff s keys = some ∅ →
      (sdiffstore s keys dst).1 = .ok 0 ∧ (sdiffstore s keys dst).2 dst = none) := by
  refine ⟨by constructor <;> decide, ?_, ?_⟩
  · intro s keys dst res hres hne
    rw [sdiffstore, hres]
    simp only [hne, if_neg hne, sadd]
    have hm : smembers (sdel s dst) dst = ∅ := by simp [smembers, sdel]
    simp [hne, hm]
  · intro s keys dst hres
    rw [sdiffstore, hres]
    simp [sdel]

/-- C3 witness: the general conjuncts applied to the concrete scenario and
to a store whose difference is empty. -/
theorem sdiffstore_scenario_witness :
    (sdiff (fun k => if k = "a" then some {"1", "2", "3"}
        else if k = "b" then some {"2", "3"} else none) ["a", "b"] = some {"1"}) ∧
    (({"1"} : Finset String) ≠ ∅) ∧
    ((sdiffstore (fun k => if k = "a" then some {"1", "2", "3"}
        else if k = "b" then some {"2", "3"} else none) ["a", "b"] "d").1 =
      .ok ({"1"} : Finset String).card) ∧
    (sdiff (fun k => if k = "a" then some {"1"} else none) ["a", "a"] = some ∅) ∧
    ((sdiffstore (fun k => if k = "a" then some {"1"} else none) ["a", "a"] "d").2 "d" =
      none) := by
  refine ⟨by decide, by decide, ?_, by decide, ?_⟩
  · exact ((sdiffstore_scenario.2.1 _ ["a", "b"] "d" {"1"} (by decide) (by decide)).1)
  · exact ((sdiffstore_scenario.2.2 _ ["a", "a"] "d" (by decide)).2)

/-! ## C4 -/

/-- C4 counterexample: with operand keys `[a, d]` and destination `d`
(which the claim's quantification over every operand list and destination
admits), `a = {1}` and `d` absent, the first run stores `{1}` in `d` but
the second run deletes `d`, so the destination membership differs between
the two runs even though no other actor touched the operands. -/
theorem sdiffstore_twice_differs :
    ((sdiffstore (fun k => if k = "a" then some {"1"} else none) ["a", "d"] "d").2
        "d" = some {"1"}) ∧
    ((sdiffstore
        ((sdiffstore (fun k => if k = "a" then some {"1"} else none) ["a", "d"] "d").2)
        ["a", "d"] "d").2 "d" = none) ∧
    some ({"1"} : Finset String) ≠ none := by
  refine ⟨by decide, by decide, by decide⟩

/-- The set-algebra store emulations touch no key other than the
destination. -/
theorem store_ops_frame (s : SStore) (keys : List String) (dst j : String)
    (hj : j ≠ dst) :
    (sdiffstore s keys dst).2 j = s j ∧
    (sinterstore s keys dst).2 j = s j ∧
    (sunionstore s keys dst).2 j = s j := by
  refine ⟨?_, ?_, ?_⟩
  · rw [sdiffstore]
    cases sdiff s keys with
    | none => rfl
    | some res =>
      by_cases h : res = ∅
      · simp [h, sdel, hj]
      · simp [h, sadd, sdel, hj]
  · rw [sinterstore]
    cases sinter s keys with
    | none => rfl
    | some res =>
      by_cases h : res = ∅
      · simp [h, sdel, hj]
      · simp [h, sadd, sdel, hj]
  · rw [sunionstore]
    cases sunion s keys with
    | none => rfl
    | some res =>
      by_cases h : res = ∅
      · simp [h, sadd, sdel, hj]
      · simp [h, sadd, sdel, hj]

/-- A fold of a set operation over per-key memberships only depends on the
stores' values at the folded keys. -/
theorem foldl_smembers_congr (f : Finset String → Finset String → Finset String)
    (s s' : SStore) (rest : List String)
    (h : ∀ k ∈ rest, s' k = s k) (init : Finset String) :
    rest.foldl (fun res arg => f res (smembers s' arg)) init =
      rest.foldl (fun res arg => f res (smembers s arg)) init := by
  induction rest generalizing init with
  | nil => rfl
  | cons a rest ih =>
    simp only [List.foldl_cons]
    rw [show smembers s' a = smembers s a from by
          simp [smembers, h a (by simp)],
        ih (fun k hk => h k (by simp [hk]))]

/-- `sdiff`, `sinter` and `sunion` only read the operand keys. -/
theorem set_algebra_congr (s s' : SStore) (keys : List String)
    (h : ∀ k ∈ keys, s' k = s k) :
    sdiff s' keys = sdiff s keys ∧ sinter s' keys = sinter s keys ∧
    sunion s' keys = sunion s keys := by
  cases keys with
  | nil => exact ⟨rfl, rfl, rfl⟩
  | cons k rest =>
    have hk : smembers s' k = smembers s k := by
      simp [smembers, h k (by simp)]
    have hrest : ∀ a ∈ rest, s' a = s a := fun a ha => h a (by simp [ha])
    refine ⟨?_, ?_, ?_⟩ <;>
      simp only [sdiff, sinter, sunion, hk,
        foldl_smembers_congr _ s s' rest hrest, Option.some.injEq]

/-- Destination contents after each store emulation, as a function of the
computed set. -/
theorem store_ops_dest (s : SStore) (keys : List String) (dst : String) :
    (sdiffstore s keys dst).2 dst =
      (match sdiff s keys with
       | none => s dst
       | some res => if res = ∅ then none else some res) ∧
    (sinterstore s keys dst).2 dst =
      (match sinter s keys with
       | none => s dst
       | some res => if res = ∅ then none else some res) ∧
    (sunionstore s keys dst).2 dst =
      (match sunion s keys with
       | none => s dst
       | some res => if res = ∅ then none else some res) := by
  have hm : smembers (sdel s dst) dst = ∅ := by simp [smembers, sdel]
  refine ⟨?_, ?_, ?_⟩
  · rw [sdiffstore]
    cases sdiff s keys with
    | none => rfl
    | some res =>
      by_cases h : res = ∅
      · simp [h, sdel]
      · simp [h, sadd, hm]
  · rw [sinterstore]
    cases sinter s keys with
    | none => rfl
    | some res =>
      by_cases h : res = ∅
      · simp [h, sdel]
      · simp [h, sadd, hm]
  · rw [sunionstore]
    cases sunion s keys with
    | none => rfl
    | some res =>
      by_cases h : res = ∅
      · simp [h, sadd, sdel]
      · simp [h, sadd, hm]

/-- C4 amended: for sdiffstore, sinterstore and sunionstore, running the
operation twice in a row with no intervening mutation yields the same
destination membership both times, provided the destination key is not
among the operand keys (when the destination is itself a subtrahend
operand of sdiffstore the first run's write feeds the second run's read
and the property fails, see the counterexample). -/
theorem store_ops_idempotent (s : SStore) (keys : List String) (dst : String)
    (h : dst ∉ keys) :
    (sdiffstore (sdiffstore s keys dst).2 keys dst).2 dst =
      (sdiffstore s keys dst).2 dst ∧
    (sinterstore (sinterstore s keys dst).2 keys dst).2 dst =
      (sinterstore s keys dst).2 dst ∧
    (sunionstore (sunionstore s keys dst).2 keys dst).2 dst =
      (sunionstore s keys dst).2 dst := by
  have hop : ∀ k ∈ keys, k ≠ dst := fun k hk he => h (he ▸ hk)
  refine ⟨?_, ?_, ?_⟩
  · have hcong : ∀ k ∈ keys, (sdiffstore s keys dst).2 k = s k :=
      fun k hk => (store_ops_frame s keys dst k (hop k hk)).1
    rw [(store_ops_dest _ keys dst).1, (store_ops_dest s keys dst).1,
      (set_algebra_congr s _ keys hcong).1]
    cases hd : sdiff s keys with
    | none => simp [sdiffstore, hd]
    | some res => rfl
  · have hcong : ∀ k ∈ keys, (sinterstore s keys dst).2 k = s k :=
      fun k hk => (store_ops_frame s keys dst k (hop k hk)).2.1
    rw [(store_ops_dest _ keys dst).2.1, (store_ops_dest s keys dst).2.1,
      (set_algebra_congr s _ keys hcong).2.1]
    cases hd : sinter s keys with
    | none => simp [sinterstore, hd]
    | some res => rfl
  · have hcong : ∀ k ∈ keys, (sunionstore s keys dst).2 k = s k :=
      fun k hk => (store_ops_frame s keys dst k (hop k hk)).2.2
    rw [(store_ops_dest _ keys dst).2.2, (store_ops_dest s keys dst).2.2,
      (set_algebra_congr s _ keys hcong).2.2]
    cases hd : sunion s keys with
    | none => simp [sunionstore, hd]
    | some res => rfl

/-- C4 witness: idempotency at a concrete store whose destination is not an
operand. -/
theorem store_ops_idempotent_witness :
    ("d" ∉ ["a", "b"]) ∧
    (sdiffstore ((sdiffstore (fun k => if k = "a" then some {"1", "2"}
        else if k = "b" then some {"2"} else none) ["a", "b"] "d").2) ["a", "b"] "d").2
      "d" =
      ((sdiffstore (fun k => if k = "a" then some {"1", "2"}
        else if k = "b" then some {"2"} else none) ["a", "b"] "d").2) "d" := by
  exact ⟨by decide,
    (store_ops_idempotent (fun k => if k = "a" then some {"1", "2"}
      else if k = "b" then some {"2"} else none) ["a", "b"] "d" (by decide)).1⟩

/-! ## C5 -/

/-- Pointwise effect of folding DEL over a key list. -/
theorem foldl_kdel_eq (l : List String) (s : KVStore) (k : String) :
    (l.foldl kdel s) k = if k ∈ l then none else s k := by
  induction l generalizing s with
  | nil => simp
  | cons a rest ih =>
    rw [List.foldl_cons, ih]
    by_cases hm : k ∈ rest
    · simp [hm]
    · by_cases ha : k = a
      · simp [hm, ha, kdel]
      · simp [hm, ha, kdel]

/-- Folding DEL over a key list erases every listed key. -/
theorem foldl_kdel_mem (l : List String) (s : KVStore) (k : String) (hk : k ∈ l) :
    (l.foldl kdel s) k = none := by
  rw [foldl_kdel_eq]
  simp [hk]

/-- Folding DEL over a key list leaves unlisted keys alone. -/
theorem foldl_kdel_not_mem (l : List String) (s : KVStore) (k : String)
    (hk : k ∉ l) :
    (l.foldl kdel s) k = s k := by
  rw [foldl_kdel_eq]
  simp [hk]

/-- Folding DEL cannot resurrect an absent key. -/
theorem foldl_kdel_none (l : List String) (s : KVStore) (k : String)
    (hk : s k = none) :
    (l.foldl kdel s) k = none := by
  rw [foldl_kdel_eq, hk]
  simp

/-- Core of the pfmerge cleanup argument: after deleting the temporary
merge key and then every relocated key, all of them are gone while any
other key keeps its pre-cleanup value. -/
theorem cleanup_core (all_k : List String) (td dk : String) (s3 : KVStore) :
    (∀ k ∈ all_k, (all_k.foldl kdel (kdel s3 td)) k = none) ∧
    (all_k.foldl kdel (kdel s3 td)) td = none ∧
    (dk ∉ all_k → dk ≠ td → (all_k.foldl kdel (kdel s3 td)) dk = s3 dk) := by
  refine ⟨fun k hk => foldl_kdel_mem _ _ k hk,
    foldl_kdel_none _ _ _ (by simp [kdel]), fun hm hn => ?_⟩
  rw [foldl_kdel_not_mem _ _ dk hm]
  simp [kdel, hn]

/-- C5: after a successful run of the cluster pfmerge emulation every
temporary key (the relocated per-source copies and the temporary merge
destination) is deleted, and — whenever the caller's destination key does
not collide with a generated temporary key — the true destination holds the
value read back from the temporary merge key. -/
theorem pfmerge_cleans_up (serverMerge : Option String → List (Option String) → String)
    (rng : Nat → String) (s : KVStore) (destkey : String)
    (sourcekeys : List String) :
    (pfmerge serverMerge rng s destkey sourcekeys).ret = true ∧
    (∀ k ∈ (pfmerge serverMerge rng s destkey sourcekeys).tempKeys,
      (pfmerge serverMerge rng s destkey sourcekeys).store k = none) ∧
    (pfmerge serverMerge rng s destkey sourcekeys).store
      (pfmerge serverMerge rng s destkey sourcekeys).tmpDest = none ∧
    (destkey ∉ (pfmerge serverMerge rng s destkey sourcekeys).tempKeys →
      destkey ≠ (pfmerge serverMerge rng s destkey sourcekeys).tmpDest →
      (pfmerge serverMerge rng s destkey sourcekeys).store destkey =
        some (pfmerge serverMerge rng s destkey sourcekeys).merged) := by
  refine ⟨rfl, ?_, ?_, ?_⟩
  · intro k hk
    exact foldl_kdel_mem _ _ k hk
  · exact foldl_kdel_none _ _ _ (by
      show kdel _ (pfmerge serverMerge rng s destkey sourcekeys).tmpDest
        (pfmerge serverMerge rng s destkey sourcekeys).tmpDest = none
      simp [kdel])
  · intro hmem hne
    refine ((cleanup_core _ _ destkey _).2.2 hmem hne).trans ?_
    simp [pfmerge, kset]

/-- C5 witness: two present sources, an absent destination and a concrete
id stream; the generated temporary keys avoid the destination. -/
theorem pfmerge_cleans_up_witness :
    ("dest" ∉ (pfmerge (fun _ _ => "M") (fun i => String.mk (List.replicate i 'R'))
        (fun k => if k = "s1" then some "h1" else if k = "s2" then some "h2" else none)
        "dest" ["s1", "s2"]).tempKeys) ∧
    ("dest" ≠ (pfmerge (fun _ _ => "M") (fun i => String.mk (List.replicate i 'R'))
        (fun k => if k = "s1" then some "h1" else if k = "s2" then some "h2" else none)
        "dest" ["s1", "s2"]).tmpDest) ∧
    (pfmerge (fun _ _ => "M") (fun i => String.mk (List.replicate i 'R'))
        (fun k => if k = "s1" then some "h1" else if k = "s2" then some "h2" else none)
        "dest" ["s1", "s2"]).store "dest" =
      some (pfmerge (fun _ _ => "M") (fun i => String.mk (List.replicate i 'R'))
        (fun k => if k = "s1" then some "h1" else if k = "s2" then some "h2" else none)
        "dest" ["s1", "s2"]).merged := by
  refine ⟨by decide, by decide, ?_⟩
  exact (pfmerge_cleans_up (fun _ _ => "M") (fun i => String.mk (List.replicate i 'R'))
    (fun k => if k = "s1" then some "h1" else if k = "s2" then some "h2" else none)
    "dest" ["s1", "s2"]).2.2.2 (by decide) (by decide)

/-! ## C1 -/

/-- C1: the temporary-key generator never embeds the per-invocation random
identifier.  The Python source interpolates with `f"{{hashslot}}{...}"`,
whose doubled braces are literal-brace escapes, so every generated key
carries the constant hash tag `hashslot` regardless of the `hashslot`
argument: evaluated at a concrete random id the extracted tag is the word
`hashslot`, not the id, and the generator's output provably does not
depend on its first argument at all.  The random id itself is, as claimed,
16 characters drawn from the uppercase-plus-digits alphabet. -/
theorem random_good_hashslot_key_ignores_argument :
    hashTagOf (random_good_hashslot_key "A1B2C3D4E5F6G7H8" "Q7R8S9T0U1V2W3X4") =
      some "hashslot" ∧
    ("hashslot" : String) ≠ "A1B2C3D4E5F6G7H8" ∧
    (∀ slot rid, random_good_hashslot_key slot rid = "\x7bhashslot\x7d" ++ rid) ∧
    (∀ slot slot' rid,
      random_good_hashslot_key slot rid = random_good_hashslot_key slot' rid) ∧
    (∀ picks, (random_id picks 16).length = 16) ∧
    (∀ picks size, ∀ c ∈ (random_id picks size).toList, c ∈ ALPHABET) := by
  refine ⟨by decide, by decide, fun _ _ => rfl, fun _ _ _ => rfl, ?_, ?_⟩
  · intro picks
    simp [random_id, String.length]
  · intro picks size c hc
    simp only [random_id, String.toList, List.mem_map] at hc
    obtain ⟨i, _, hi⟩ := hc
    rw [← hi]
    have hlt : (picks i).val < ALPHABET.length := by
      have h36 := (picks i).isLt
      simpa [ALPHABET] using h36
    rw [List.getD_eq_getElem?_getD, List.getElem?_eq_getElem hlt]
    exact List.getElem_mem hlt

/-! ## Order lemmas for the sort comparators -/

/-- Strict lexicographic order is transitive. -/
theorem lexLt_trans (a b c : List Char) (h1 : lexLt a b = true)
    (h2 : lexLt b c = true) : lexLt a c = true := by
  induction a generalizing b c with
  | nil =>
    cases b with
    | nil => simp [lexLt] at h1
    | cons y ys =>
      cases c with
      | nil => simp [lexLt] at h2
      | cons z zs => simp [lexLt]
  | cons x xs ih =>
    cases b with
    | nil => simp [lexLt] at h1
    | cons y ys =>
      cases c with
      | nil => simp [lexLt] at h2
      | cons z zs =>
        simp only [lexLt] at h1 h2 ⊢
        by_cases hxy : x = y
        · subst hxy
          by_cases hxz : x = z
          · subst hxz
            simp only [if_pos rfl] at h1 h2 ⊢
            exact ih ys zs h1 h2
          · simpa [hxz] using h2
        · by_cases hyz : y = z
          · subst hyz
            simpa [hxy] using h1
          · simp only [if_neg hxy, if_neg hyz, decide_eq_true_eq] at h1 h2
            have hlt := lt_trans h1 h2
            simp [ne_of_lt hlt, hlt]

/-- Strict lexicographic order is trichotomous. -/
theorem lexLt_total (a b : List Char) :
    a = b ∨ lexLt a b = true ∨ lexLt b a = true := by
  induction a generalizing b with
  | nil =>
    cases b with
    | nil => exact Or.inl rfl
    | cons y ys => exact Or.inr (Or.inl (by simp [lexLt]))
  | cons x xs ih =>
    cases b with
    | nil => exact Or.inr (Or.inr (by simp [lexLt]))
    | cons y ys =>
      by_cases hxy : x = y
      · subst hxy
        rcases ih ys with h | h | h
        · exact Or.inl (by rw [h])
        · exact Or.inr (Or.inl (by simp [lexLt, h]))
        · exact Or.inr (Or.inr (by simp [lexLt, h]))
      · rcases lt_trichotomy x y with h | h | h
        · exact Or.inr (Or.inl (by simp [lexLt, hxy, h]))
        · exact absurd h hxy
        · refine Or.inr (Or.inr ?_)
          simp only [lexLt]
          rw [if_neg (fun he : y = x => hxy he.symm)]
          simp [h]

/-- The reflexive lexicographic order is total. -/
theorem lexLe_total (a b : List Char) : lexLe a b = true ∨ lexLe b a = true := by
  rcases lexLt_total a b with h | h | h
  · exact Or.inl (by simp [lexLe, h])
  · exact Or.inl (by simp [lexLe, h])
  · exact Or.inr (by simp [lexLe, h])

/-- The reflexive lexicographic order is transitive. -/
theorem lexLe_trans (a b c : List Char) (h1 : lexLe a b = true)
    (h2 : lexLe b c = true) : lexLe a c = true := by
  simp only [lexLe, Bool.or_eq_true, decide_eq_true_eq] at h1 h2 ⊢
  rcases h1 with h1 | h1
  · subst h1
    exact h2
  · rcases h2 with h2 | h2
    · subst h2
      exact Or.inr h1
    · exact Or.inr (lexLt_trans a b c h1 h2)

/-- The decimal comparison is total. -/
theorem decLe_total (a b : Dec) : decLe a b = true ∨ decLe b a = true := by
  simp only [decLe, decide_eq_true_eq]
  exact Int.le_total _ _

/-- The decimal comparison is transitive (cross multiplication by the
positive power of ten). -/
theorem decLe_trans (a b c : Dec) (h1 : decLe a b = true)
    (h2 : decLe b c = true) : decLe a c = true := by
  simp only [decLe, decide_eq_true_eq] at h1 h2 ⊢
  have hb : (0 : Int) < 10 ^ b.exp := pow_pos (by norm_num) _
  have hc : (0 : Int) ≤ 10 ^ c.exp := le_of_lt (pow_pos (by norm_num) _)
  have ha : (0 : Int) ≤ 10 ^ a.exp := le_of_lt (pow_pos (by norm_num) _)
  have H1 := mul_le_mul_of_nonneg_right h1 hc
  have H2 := mul_le_mul_of_nonneg_right h2 ha
  nlinarith [H1, H2, hb]

/-- The sort-key comparison is total. -/
theorem skeyLe_total (a b : SKey) : skeyLe a b = true ∨ skeyLe b a = true := by
  cases a with
  | num da =>
    cases b with
    | num db => simpa [skeyLe] using decLe_total da db
    | raw vb => exact Or.inl rfl
  | raw va =>
    cases b with
    | num db => exact Or.inr rfl
    | raw vb => simpa [skeyLe, pyStrLe] using lexLe_total va.toList vb.toList

/-- The sort-key comparison is transitive. -/
theorem skeyLe_trans (a b c : SKey) (h1 : skeyLe a b = true)
    (h2 : skeyLe b c = true) : skeyLe a c = true := by
  cases a with
  | num da =>
    cases b with
    | num db =>
      cases c with
      | num dc => exact decLe_trans da db dc h1 h2
      | raw vc => rfl
    | raw vb =>
      cases c with
      | num dc => simp [skeyLe] at h2
      | raw vc => rfl
  | raw va =>
    cases b with
    | num db => simp [skeyLe] at h1
    | raw vb =>
      cases c with
      | num dc => simp [skeyLe] at h2
      | raw vc =>
        simp only [skeyLe, pyStrLe] at h1 h2 ⊢
        exact lexLe_trans _ _ _ h1 h2

/-- Successful `mapM` of an element-tagging resolver: the produced pairs
keep the elements in order and record each element's resolved key. -/
theorem mapM_fst_ok {κ : Type} (F : String → Except String (String × κ))
    (l : List String) (h : ∀ d ∈ l, ∃ b, F d = .ok (d, b)) :
    ∃ pairs : List (String × κ),
      l.mapM F = .ok pairs ∧ pairs.map Prod.fst = l ∧
      (∀ p ∈ pairs, F p.1 = .ok p) := by
  induction l with
  | nil => exact ⟨[], rfl, rfl, by simp⟩
  | cons a rest ih =>
    obtain ⟨b, hb⟩ := h a (by simp)
    obtain ⟨pairs, hm, hf, hp⟩ := ih (fun d hd => h d (by simp [hd]))
    refine ⟨(a, b) :: pairs, ?_, by simp [hf], ?_⟩
    · rw [List.mapM_cons, hb, hm]
      rfl
    · intro p hp2
      rcases List.mem_cons.mp hp2 with h1 | h1
      · rw [h1, hb]
      · exact hp p h1

/-! ## Evaluation lemmas for the sort emulation -/

/-- Evaluation of `sort` on a list-typed key, without `store`: the reply is
the sorted data with the offset/count slice applied when present, and the
keyspace is untouched. -/
theorem sort_eval_list (se : Finset String → List String) (s : LStore)
    (key : String) (l : List String) (hk : s key = some (.list l))
    (byPat : Option String) (alpha : Bool) (sorted0 : List String)
    (hs : sortData s byPat alpha l = .ok sorted0) :
    sort se s key [] byPat none none false alpha none = (.ok (.inl sorted0), s) ∧
    (∀ o c, sort se s key [] byPat (some o) (some c) false alpha none =
      (.ok (.inl ((sorted0.drop o).take c)), s)) := by
  constructor
  · simp [sort, typeOf, hk, hs, retriveDataFromSort]
  · intro o c
    simp [sort, typeOf, hk, hs, retriveDataFromSort]

/-- Evaluation of `sort` on a list-typed key with `store`: the destination
is deleted, the sorted data appended, the reply is the stored length and no
other key moves. -/
theorem sort_eval_list_store (se : Finset String → List String) (s : LStore)
    (key : String) (l : List String) (hk : s key = some (.list l))
    (byPat : Option String) (alpha : Bool) (sorted0 : List String)
    (hs : sortData s byPat alpha l = .ok sorted0) (dst : String)
    (hne : sorted0 ≠ []) :
    (sort se s key [] byPat none none false alpha (some dst)).1 =
      .ok (.inr sorted0.length) ∧
    (sort se s key [] byPat none none false alpha (some dst)).2 dst =
      some (.list sorted0) ∧
    (∀ j, j ≠ dst →
      (sort se s key [] byPat none none false alpha (some dst)).2 j = s j) := by
  refine ⟨?_, ?_, ?_⟩
  · simp [sort, typeOf, hk, hs, retriveDataFromSort, rpush, hne, ldel]
  · simp [sort, typeOf, hk, hs, retriveDataFromSort, rpush, hne, ldel]
  · intro j hj
    simp [sort, typeOf, hk, hs, retriveDataFromSort, rpush, hne, ldel, hj]

/-- Transfer of sortedness from the pair comparison to any relation on the
underlying elements that it implies for the pairs at hand. -/
theorem sortPairs_pairwise (pairs : List (String × SKey))
    (S : String → String → Prop)
    (himp : ∀ p ∈ pairs, ∀ q ∈ pairs, skeyLe p.2 q.2 = true → S p.1 q.1) :
    (sortPairs pairs).Pairwise S := by
  rw [sortPairs, List.pairwise_map]
  haveI : IsTotal (String × SKey) (fun a b => skeyLe a.2 b.2 = true) :=
    ⟨fun a b => skeyLe_total a.2 b.2⟩
  haveI : IsTrans (String × SKey) (fun a b => skeyLe a.2 b.2 = true) :=
    ⟨fun a b c => skeyLe_trans a.2 b.2 c.2⟩
  have hsorted : (List.insertionSort (fun a b => skeyLe a.2 b.2) pairs).Pairwise
      (fun a b => skeyLe a.2 b.2 = true) :=
    List.sorted_insertionSort _ pairs
  refine List.Pairwise.imp_of_mem ?_ hsorted
  intro a b ha hb hr
  exact himp a (by simpa using ha) b (by simpa using hb) hr

/-- The sorted pairs are a permutation of the tagged elements. -/
theorem sortPairs_perm (pairs : List (String × SKey)) :
    (sortPairs pairs).Perm (pairs.map Prod.fst) := by
  rw [sortPairs]
  exact (List.perm_insertionSort _ pairs).map Prod.fst

/-! ## C7 -/

/-- C7 (amended): the cluster sort emulation fetches the whole list, sorts
in memory — by Python `float` of the elements when neither `by` nor `alpha`
is given, lexicographically under `alpha`, by the per-element resolved
`by`-values compared as floats for hash-field patterns without `alpha` and
compared as raw byte strings for plain patterns whatever `alpha` says —
then applies the offset/count slice, and either replies with the list or,
with `store`, deletes the destination, appends the elements and replies
with their number. -/
theorem sort_emulation_behaviour (se : Finset String → List String) (s : LStore)
    (key : String) (l : List String) (hk : s key = some (.list l)) :
    (sort se s key [] none none none false true none =
        (.ok (.inl (List.insertionSort (fun a b => pyStrLe a b) l)), s) ∧
      (List.insertionSort (fun a b => pyStrLe a b) l).Perm l ∧
      (List.insertionSort (fun a b => pyStrLe a b) l).Pairwise
        (fun a b => pyStrLe a b = true)) ∧
    ((∀ d ∈ l, (pyfloat d).isSome) →
      ∃ out, sort se s key [] none none none false false none = (.ok (.inl out), s) ∧
        out.Perm l ∧
        out.Pairwise (fun a b => ∀ qa qb, pyfloat a = some qa →
          pyfloat b = some qb → decLe qa qb = true)) ∧
    (∀ (bp : String) (alpha : Bool),
      (∀ d ∈ l, ∃ v, byKeyOf s bp alpha d = .ok (.raw v)) →
      ∃ out, sort se s key [] (some bp) none none false alpha none =
          (.ok (.inl out), s) ∧
        out.Perm l ∧
        out.Pairwise (fun a b => ∀ va vb, byKeyOf s bp alpha a = .ok (.raw va) →
          byKeyOf s bp alpha b = .ok (.raw vb) → pyStrLe va vb = true)) ∧
    (∀ bp : String,
      (∀ d ∈ l, ∃ q, byKeyOf s bp false d = .ok (.num q)) →
      ∃ out, sort se s key [] (some bp) none none false false none =
          (.ok (.inl out), s) ∧
        out.Perm l ∧
        out.Pairwise (fun a b => ∀ qa qb, byKeyOf s bp false a = .ok (.num qa) →
          byKeyOf s bp false b = .ok (.num qb) → decLe qa qb = true)) ∧
    (∀ o c, sort se s key [] none (some o) (some c) false true none =
      (.ok (.inl (((List.insertionSort (fun a b => pyStrLe a b) l).drop o).take c)),
        s)) ∧
    (∀ dst, List.insertionSort (fun a b => pyStrLe a b) l ≠ [] →
      (sort se s key [] none none none false true (some dst)).1 =
        .ok (.inr (List.insertionSort (fun a b => pyStrLe a b) l).length) ∧
      (sort se s key [] none none none false true (some dst)).2 dst =
        some (.list (List.insertionSort (fun a b => pyStrLe a b) l)) ∧
      (∀ j, j ≠ dst →
        (sort se s key [] none none none false true (some dst)).2 j = s j)) := by
  have hsa : sortData s none true l =
      .ok (List.insertionSort (fun a b => pyStrLe a b) l) := rfl
  haveI htotS : IsTotal String (fun a b => pyStrLe a b = true) :=
    ⟨fun a b => by simpa [pyStrLe] using lexLe_total a.toList b.toList⟩
  haveI htrS : IsTrans String (fun a b => pyStrLe a b = true) :=
    ⟨fun a b c h1 h2 => by
      simp only [pyStrLe] at h1 h2 ⊢
      exact lexLe_trans _ _ _ h1 h2⟩
  refine ⟨⟨(sort_eval_list se s key l hk none true _ hsa).1,
      List.perm_insertionSort _ l, List.sorted_insertionSort _ l⟩, ?_, ?_, ?_, ?_, ?_⟩
  · intro hf
    have hF : ∀ d ∈ l, ∃ b, floatKeyPair d = .ok (d, b) := by
      intro d hd
      obtain ⟨q, hq⟩ := Option.isSome_iff_exists.mp (hf d hd)
      exact ⟨.num q, by simp only [floatKeyPair, hq]⟩
    obtain ⟨pairs, hm, hfst, hmem⟩ := mapM_fst_ok floatKeyPair l hF
    have hsd : sortData s none false l = .ok (sortPairs pairs) := by
      have hu : sortData s none false l =
          Except.map sortPairs (l.mapM floatKeyPair) := rfl
      rw [hu, hm]
      rfl
    refine ⟨sortPairs pairs, (sort_eval_list se s key l hk none false _ hsd).1,
      hfst ▸ sortPairs_perm pairs, ?_⟩
    refine sortPairs_pairwise pairs _ ?_
    intro p hp q hq hr qa qb hqa hqb
    have h1 := hmem p hp
    have h2 := hmem q hq
    rw [floatKeyPair, hqa] at h1
    rw [floatKeyPair, hqb] at h2
    have hp2 : p.2 = .num qa := by
      have := (Except.ok.inj h1).symm
      rw [this]
    have hq2 : q.2 = .num qb := by
      have := (Except.ok.inj h2).symm
      rw [this]
    rw [hp2, hq2] at hr
    exact hr
  · intro bp alpha hres
    have hF : ∀ d ∈ l, ∃ b, byKeyPair s bp alpha d = .ok (d, b) := by
      intro d hd
      obtain ⟨v, hv⟩ := hres d hd
      exact ⟨.raw v, by rw [byKeyPair, hv]; rfl⟩
    obtain ⟨pairs, hm, hfst, hmem⟩ := mapM_fst_ok (byKeyPair s bp alpha) l hF
    have hsd : sortData s (some bp) alpha l = .ok (sortPairs pairs) := by
      have hu : sortData s (some bp) alpha l =
          Except.map sortPairs (l.mapM (byKeyPair s bp alpha)) := rfl
      rw [hu, hm]
      rfl
    refine ⟨sortPairs pairs, (sort_eval_list se s key l hk (some bp) alpha _ hsd).1,
      hfst ▸ sortPairs_perm pairs, ?_⟩
    refine sortPairs_pairwise pairs _ ?_
    intro p hp q hq hr va vb hva hvb
    have h1 := hmem p hp
    have h2 := hmem q hq
    rw [byKeyPair, hva] at h1
    rw [byKeyPair, hvb] at h2
    have hp2 : p.2 = .raw va := by
      have := (Except.ok.inj h1).symm
      rw [this]
    have hq2 : q.2 = .raw vb := by
      have := (Except.ok.inj h2).symm
      rw [this]
    rw [hp2, hq2] at hr
    exact hr
  · intro bp hres
    have hF : ∀ d ∈ l, ∃ b, byKeyPair s bp false d = .ok (d, b) := by
      intro d hd
      obtain ⟨q, hq⟩ := hres d hd
      exact ⟨.num q, by rw [byKeyPair, hq]; rfl⟩
    obtain ⟨pairs, hm, hfst, hmem⟩ := mapM_fst_ok (byKeyPair s bp false) l hF
    have hsd : sortData s (some bp) false l = .ok (sortPairs pairs) := by
      have hu : sortData s (some bp) false l =
          Except.map sortPairs (l.mapM (byKeyPair s bp false)) := rfl
      rw [hu, hm]
      rfl
    refine ⟨sortPairs pairs, (sort_eval_list se s key l hk (some bp) false _ hsd).1,
      hfst ▸ sortPairs_perm pairs, ?_⟩
    refine sortPairs_pairwise pairs _ ?_
    intro p hp q hq hr qa qb hqa hqb
    have h1 := hmem p hp
    have h2 := hmem q hq
    rw [byKeyPair, hqa] at h1
    rw [byKeyPair, hqb] at h2
    have hp2 : p.2 = .num qa := by
      have := (Except.ok.inj h1).symm
      rw [this]
    have hq2 : q.2 = .num qb := by
      have := (Except.ok.inj h2).symm
      rw [this]
    rw [hp2, hq2] at hr
    exact hr
  · intro o c
    exact (sort_eval_list se s key l hk none true _ hsa).2 o c
  · intro dst hne
    exact sort_eval_list_store se s key l hk none true _ hsa dst hne

/-- C7 counterexample to the claim as stated: with a plain `by` pattern
`w_*` and the alpha flag not set, the emulation compares the resolved
values `10` and `9` as raw byte strings rather than floats, returning the
element with value 10 first even though 9 < 10 numerically. -/
theorem sort_by_plain_pattern_counterexample :
    (sort (fun _ => []) (fun k =>
        if k = "mylist" then some (.list ["x", "y"])
        else if k = "w_x" then some (.str "10")
        else if k = "w_y" then some (.str "9") else none)
      "mylist" [] (some "w_*") none none false false none).1 =
        .ok (.inl ["x", "y"]) ∧
    lget (fun k =>
        if k = "mylist" then some (.list ["x", "y"])
        else if k = "w_x" then some (.str "10")
        else if k = "w_y" then some (.str "9") else none) "w_x" = some "10" ∧
    lget (fun k =>
        if k = "mylist" then some (.list ["x", "y"])
        else if k = "w_x" then some (.str "10")
        else if k = "w_y" then some (.str "9") else none) "w_y" = some "9" ∧
    pyfloat "9" = some ⟨9, 0⟩ ∧ pyfloat "10" = some ⟨10, 0⟩ ∧
    decLe ⟨9, 0⟩ ⟨10, 0⟩ = true ∧ decLe ⟨10, 0⟩ ⟨9, 0⟩ = false ∧
    (["x", "y"] : List String) ≠ ["y", "x"] := by
  decide

/-- C7 witness: the amended theorem applied to a two-element list of
numeric strings sorted without `by` and without alpha. -/
theorem sort_emulation_behaviour_witness :
    ((fun k => if k = "mylist" then some (RObj.list ["2", "10"]) else none : LStore)
        "mylist" = some (.list ["2", "10"])) ∧
    (∀ d ∈ (["2", "10"] : List String), (pyfloat d).isSome) ∧
    (∃ out, sort (fun _ => []) (fun k =>
        if k = "mylist" then some (RObj.list ["2", "10"]) else none)
        "mylist" [] none none none false false none =
        (.ok (.inl out), fun k =>
          if k = "mylist" then some (RObj.list ["2", "10"]) else none) ∧
      out.Perm ["2", "10"] ∧
      out.Pairwise (fun a b => ∀ qa qb, pyfloat a = some qa →
        pyfloat b = some qb → decLe qa qb = true)) := by
  refine ⟨by decide, by decide, ?_⟩
  exact (sort_emulation_behaviour (fun _ => [])
    (fun k => if k = "mylist" then some (RObj.list ["2", "10"]) else none)
    "mylist" ["2", "10"] (by decide)).2.1 (by decide)

end Coredis
